import Mathlib

/-!
# ontrack-cli: the `pl auto` command

A shallow embedding of `cmd/promotionLevelAuto.go` (with the flag wiring of
`cmd/promotionLevelSetup.go`) and theorems about what one run of the command does.

* The remote service is a parameter: a transition function over an arbitrary state type,
  applied to a `RemoteCall` value that records which client function was called and with
  which arguments.
* Every run produces, besides its Go `error` result, the log of the remote calls it issued
  together with what each call returned.
-/

namespace OntrackCli

/-! ## Data model -/

/-- Go `error` values are represented by their message. -/
abbrev Error := String

/-- Configuration content (`config.Config`). -/
structure Config where
  Name : String
  URL : String
  Username : String
  Password : String
  Token : String
deriving DecidableEq, Repr

/-- One promotion entry of the YAML file (`PromotionConfig`). -/
structure PromotionConfig where
  Name : String
  Validations : List String
  Promotions : List String
deriving DecidableEq, Repr

/-- Root of the YAML file (`AutoPromotions`). -/
structure AutoPromotions where
  Promotions : List PromotionConfig
deriving DecidableEq, Repr

/-- The two client functions `pl auto` calls, with the arguments of the call in the order of
the Go call sites. -/
inductive RemoteCall where
  | SetupValidationStamp (cfg : Config) (project branch validation description
      dataType dataConfig : String)
  | SetupPromotionLevel (cfg : Config) (project branch promotion description : String)
      (autoPromotion : Bool) (validationStamps promotionLevels : List String)
      (incl excl : String)
deriving DecidableEq, Repr

/-- The remote side: given a call and the current remote state, the error returned by the
client function (`none` is Go's `nil`) and the next remote state. -/
abbrev Remote (σ : Type) := RemoteCall → σ → Option Error × σ

/-- A remote call that was issued, with what it returned. -/
structure Issued where
  call : RemoteCall
  result : Option Error
deriving DecidableEq, Repr

/-- Outcome of a sequence of remote calls: the returned error, the calls issued in order,
and the remote state afterwards. -/
structure Outcome (σ : Type) where
  err : Option Error
  calls : List Issued
  remote : σ

/-- Whether a call is a validation-stamp setup. -/
def RemoteCall.isValidationStamp : RemoteCall → Bool
  | .SetupValidationStamp .. => true
  | .SetupPromotionLevel .. => false

/-- Whether a call is a promotion-level setup. -/
def RemoteCall.isPromotionLevel : RemoteCall → Bool
  | .SetupValidationStamp .. => false
  | .SetupPromotionLevel .. => true

/-! ## `RunE` of `promotionLevelAutoCmd`, from the parsed document on -/

/-- Lines 90-100: the `validationStamps` slice, built by appending every validation of every
promotion, in document order. -/
def validationStamps (root : AutoPromotions) : List String :=
  root.Promotions.foldl
    (fun acc promotion =>
      if promotion.Validations.length > 0 then
        promotion.Validations.foldl (fun acc validation => acc ++ [validation]) acc
      else acc)
    []

/-- Lines 102-117: creates all the validations; the loop returns at the first error. -/
def createValidations {σ : Type} (remote : Remote σ) (cfg : Config) (project branch : String) :
    List String → σ → Outcome σ
  | [], s => ⟨none, [], s⟩
  | validation :: rest, s =>
    match remote (.SetupValidationStamp cfg project branch validation "" "" "") s with
    | (some err, s1) =>
      ⟨some err, [⟨.SetupValidationStamp cfg project branch validation "" "" "", some err⟩], s1⟩
    | (none, s1) =>
      let r := createValidations remote cfg project branch rest s1
      ⟨r.err, ⟨.SetupValidationStamp cfg project branch validation "" "" "", none⟩ :: r.calls,
        r.remote⟩

/-- Lines 122-133: the call issued for one promotion entry. -/
def promotionLevelCall (cfg : Config) (project branch : String)
    (promotion : PromotionConfig) : RemoteCall :=
  .SetupPromotionLevel cfg project branch promotion.Name ""
    (decide (promotion.Validations.length > 0) || decide (promotion.Promotions.length > 0))
    promotion.Validations promotion.Promotions "" ""

/-- Lines 119-137: auto promotion setup; the loop returns at the first error. -/
def autoPromotionSetup {σ : Type} (remote : Remote σ) (cfg : Config) (project branch : String) :
    List PromotionConfig → σ → Outcome σ
  | [], s => ⟨none, [], s⟩
  | promotion :: rest, s =>
    match remote (promotionLevelCall cfg project branch promotion) s with
    | (some err, s1) =>
      ⟨some err, [⟨promotionLevelCall cfg project branch promotion, some err⟩], s1⟩
    | (none, s1) =>
      let r := autoPromotionSetup remote cfg project branch rest s1
      ⟨r.err, ⟨promotionLevelCall cfg project branch promotion, none⟩ :: r.calls, r.remote⟩

/-- Lines 90-140: everything `RunE` does once `root` has been read. -/
def setupFromRoot {σ : Type} (remote : Remote σ) (cfg : Config) (project branch : String)
    (root : AutoPromotions) (s : σ) : Outcome σ :=
  let stamps := createValidations remote cfg project branch (validationStamps root) s
  match stamps.err with
  | some e => ⟨some e, stamps.calls, stamps.remote⟩
  | none =>
    let levels := autoPromotionSetup remote cfg project branch root.Promotions stamps.remote
    ⟨levels.err, stamps.calls ++ levels.calls, levels.remote⟩

/-- The two phases seen as one plan: the calls `RunE` means to issue, in order. -/
def plannedCalls (cfg : Config) (project branch : String) (root : AutoPromotions) :
    List RemoteCall :=
  (validationStamps root).map
      (fun validation => RemoteCall.SetupValidationStamp cfg project branch validation "" "" "")
    ++ root.Promotions.map (promotionLevelCall cfg project branch)

/-- Issues the calls of a list in order and stops at the first error. Used to reason about
the two loops of `RunE` at once (see `setupFromRoot_eq_issueAll`). -/
def issueAll {σ : Type} (remote : Remote σ) : List RemoteCall → σ → Outcome σ
  | [], s => ⟨none, [], s⟩
  | c :: cs, s =>
    match remote c s with
    | (some e, s1) => ⟨some e, [⟨c, some e⟩], s1⟩
    | (none, s1) =>
      let r := issueAll remote cs s1
      ⟨r.err, ⟨c, none⟩ :: r.calls, r.remote⟩

/-- A remote whose calls never return an error. -/
def AlwaysSucceeds {σ : Type} (remote : Remote σ) : Prop :=
  ∀ c s, (remote c s).1 = none

/-! ## Flags (the part of `pflag` and `cobra` the commands rely on) -/

/-- A flag value with its type: `pl setup` and `pl auto` only use strings and string slices. -/
inductive FlagValue where
  | string (v : String)
  | stringSlice (v : List String)
deriving DecidableEq, Repr

/-- A defined flag; `Value` holds the default until the flag is set. -/
structure Flag where
  Name : String
  Shorthand : String
  Usage : String
  Value : FlagValue
deriving DecidableEq, Repr

/-- A set of defined flags, in definition order. -/
structure FlagSet where
  formal : List Flag
deriving DecidableEq, Repr

/-- The flag of that name, if it is defined in the set (`FlagSet.Lookup`). -/
def FlagSet.Lookup (f : FlagSet) (name : String) : Option Flag :=
  f.formal.find? (fun flag => flag.Name == name)

/-- Defines a string flag with a shorthand and a default value (`FlagSet.StringP`). -/
def FlagSet.StringP (f : FlagSet) (name shorthand value usage : String) : FlagSet :=
  ⟨f.formal ++ [⟨name, shorthand, usage, .string value⟩]⟩

/-- Defines a string-slice flag (`FlagSet.StringSliceP`). -/
def FlagSet.StringSliceP (f : FlagSet) (name shorthand : String) (value : List String)
    (usage : String) : FlagSet :=
  ⟨f.formal ++ [⟨name, shorthand, usage, .stringSlice value⟩]⟩

/-- Reads a string flag (`FlagSet.GetString`): an error when the flag is not defined in the
set or is not a string flag. -/
def FlagSet.GetString (f : FlagSet) (name : String) : Except Error String :=
  match f.Lookup name with
  | none => .error ("flag accessed but not defined: " ++ name)
  | some flag =>
    match flag.Value with
    | .string v => .ok v
    | .stringSlice _ => .error "trying to get string value of flag of type stringSlice"

/-- Sets a flag from the command line (`--name value`); an unknown flag is an error and the
command does not run. The value is taken as it is: a string-slice value is not split at
commas. -/
def FlagSet.Set (f : FlagSet) (name value : String) : Except Error FlagSet :=
  match f.Lookup name with
  | none => .error ("unknown flag: --" ++ name)
  | some _ =>
    .ok ⟨f.formal.map (fun flag =>
      if flag.Name == name then
        match flag.Value with
        | .string _ => { flag with Value := .string value }
        | .stringSlice vs => { flag with Value := .stringSlice (vs ++ [value]) }
      else flag)⟩

/-- Sets the flags given on the command line, left to right. -/
def FlagSet.Parse (f : FlagSet) : List (String × String) → Except Error FlagSet
  | [] => .ok f
  | (name, value) :: rest =>
    match f.Set name value with
    | .error e => .error e
    | .ok g => g.Parse rest

/-- A command: its name and the flags defined on the command itself (`cmd.Flags()` before the
persistent flags of its parents are merged in). -/
structure Command where
  Use : String
  flags : FlagSet
  commands : List String
deriving DecidableEq, Repr

/-- The flag set `RunE` sees as `cmd.Flags()`: the flags of the command itself, then the
persistent flags inherited from its parents. -/
def Command.Flags (cmd : Command) (inherited : FlagSet) : FlagSet :=
  ⟨cmd.flags.formal ++ inherited.formal⟩

/-- The package-level command variables the two `init` functions touch. `promotionLevelCmd`
is declared in a file that is not part of this development and is left arbitrary. -/
structure Commands where
  promotionLevelCmd : Command
  promotionLevelSetupCmd : Command
  promotionLevelAutoCmd : Command
deriving DecidableEq, Repr

/-- The variable initialisers of `promotionLevelSetupCmd` and `promotionLevelAutoCmd`: no flag
is defined yet. -/
def declared (promotionLevelCmd : Command) : Commands :=
  { promotionLevelCmd := promotionLevelCmd
    promotionLevelSetupCmd := ⟨"setup", ⟨[]⟩, []⟩
    promotionLevelAutoCmd := ⟨"auto", ⟨[]⟩, []⟩ }

/-- The `init` of promotionLevelAuto.go (lines 144-147). -/
def initPromotionLevelAuto (c : Commands) : Commands :=
  { c with
    promotionLevelCmd :=
      { c.promotionLevelCmd with
        commands := c.promotionLevelCmd.commands ++ [c.promotionLevelAutoCmd.Use] }
    promotionLevelSetupCmd :=
      { c.promotionLevelSetupCmd with
        flags := c.promotionLevelSetupCmd.flags.StringP "yaml" "y" ".ontrack/promotions.yaml"
          "Path to the YAML file" } }

/-- The `init` of promotionLevelSetup.go (lines 169-190). The final
`MarkPersistentFlagRequired` call defines no flag. -/
def initPromotionLevelSetup (c : Commands) : Commands :=
  { c with
    promotionLevelCmd :=
      { c.promotionLevelCmd with
        commands := c.promotionLevelCmd.commands ++ [c.promotionLevelSetupCmd.Use] }
    promotionLevelSetupCmd :=
      { c.promotionLevelSetupCmd with
        flags :=
          (((((c.promotionLevelSetupCmd.flags.StringP "promotion" "l" ""
            "Name of the promotion level").StringP "description" "d" ""
            "Description of the promotion level").StringSliceP "validation" "v" []
            "Validations the promotion level needs").StringSliceP "depends-on" "o" []
            "Promotions the promotion level needs").StringP "include" "i" ""
            "Including validation stamps using a regular expression").StringP "exclude" "x" ""
            "Excluding validation stamps using a regular expression" } }

/-- The commands once the package is initialised (Go runs the `init` functions of a package
in the order of its file names). -/
def initialised (promotionLevelCmd : Command) : Commands :=
  initPromotionLevelSetup (initPromotionLevelAuto (declared promotionLevelCmd))

/-! ## The whole `RunE` of `promotionLevelAutoCmd` -/

/-- What `RunE` takes from outside the file: branch-name normalisation, the selected
configuration, the file system, the YAML decoder and the remote service. `Unmarshal buf root`
is `yaml.Unmarshal(buf, &root)`: the error it returns and `root` as the decoder left it. The
bytes of the file are given as numbers. -/
structure Env (σ ρ : Type) where
  NormalizeBranchName : String → String
  GetSelectedConfiguration : Except Error Config
  Open : String → Except Error ρ
  ReadAll : ρ → Except Error (List Nat)
  Unmarshal : List Nat → AutoPromotions → Option Error × AutoPromotions
  remote : Remote σ

/-- Result of one run: the error returned by `RunE`, the paths passed to `os.Open`, the remote
calls issued, and the remote state afterwards. -/
structure Run (σ : Type) where
  err : Option Error
  opened : List String
  calls : List Issued
  remote : σ

/-- The function `RunE` of `promotionLevelAutoCmd` (lines 52-141); `flags` is `cmd.Flags()`. -/
def RunE {σ ρ : Type} (env : Env σ ρ) (flags : FlagSet) (s : σ) : Run σ :=
  match flags.GetString "project" with
  | .error err => ⟨some err, [], [], s⟩
  | .ok project =>
  match flags.GetString "branch" with
  | .error err => ⟨some err, [], [], s⟩
  | .ok branch =>
  let branch := env.NormalizeBranchName branch
  match flags.GetString "yaml" with
  | .error err => ⟨some err, [], [], s⟩
  | .ok promotionYamlPath =>
  let promotionYamlPath :=
    if promotionYamlPath = "" then ".ontrack/promotions.yaml" else promotionYamlPath
  match env.GetSelectedConfiguration with
  | .error err => ⟨some err, [], [], s⟩
  | .ok cfg =>
  match env.Open promotionYamlPath with
  | .error err => ⟨some err, [promotionYamlPath], [], s⟩
  | .ok reader =>
  match env.ReadAll reader with
  | .error err => ⟨some err, [promotionYamlPath], [], s⟩
  | .ok buf =>
  let root := (env.Unmarshal buf ⟨[]⟩).2
  let o := setupFromRoot env.remote cfg project branch root s
  ⟨o.err, [promotionYamlPath], o.calls, o.remote⟩

/-! ## Concrete documents, remotes and environments -/

/-- A selected configuration. -/
def demoConfig : Config :=
  ⟨"prod", "https://ontrack.example.com", "", "", "token"⟩

/-- The document of the command's help text: BRONZE needs unit-tests and lint, SILVER needs
BRONZE and deploy. -/
def bronzeSilver : AutoPromotions :=
  ⟨[⟨"BRONZE", ["unit-tests", "lint"], []⟩, ⟨"SILVER", ["deploy"], ["BRONZE"]⟩]⟩

/-- Two promotions that both need the validation `build`. -/
def sharedValidation : AutoPromotions :=
  ⟨[⟨"BRONZE", ["build"], []⟩, ⟨"SILVER", ["build"], ["BRONZE"]⟩]⟩

/-- SILVER depends on BRONZE and stands before it in the document. -/
def silverFirst : AutoPromotions :=
  ⟨[⟨"SILVER", [], ["BRONZE"]⟩, ⟨"BRONZE", [], []⟩]⟩

/-- A document with an empty promotion name and a duplicated promotion name. -/
def badNames : AutoPromotions :=
  ⟨[⟨"", [], []⟩, ⟨"GOLD", [], []⟩, ⟨"GOLD", [], []⟩]⟩

/-- A stateless remote that accepts every call. -/
def acceptAll : Remote Unit :=
  fun _ s => (none, s)

/-- A stateless remote that rejects the validation stamp `lint` and accepts everything else. -/
def lintFails : Remote Unit :=
  fun c s =>
    match c with
    | .SetupValidationStamp _ _ _ validation _ _ _ =>
      if validation = "lint" then (some "lint: validation stamp rejected", s) else (none, s)
    | .SetupPromotionLevel .. => (none, s)

/-- The persistent flags `pl` commands usually inherit: project and branch. -/
def projectBranchFlags : FlagSet :=
  (FlagSet.StringP ⟨[]⟩ "project" "p" "" "Project name").StringP "branch" "b" ""
    "Branch name or Git branch name"

/-- The flags the help text of `pl auto` describes: project, branch and a `yaml` option with
default `.ontrack/promotions.yaml`. -/
def documentedAutoFlags : FlagSet :=
  projectBranchFlags.StringP "yaml" "y" ".ontrack/promotions.yaml" "Path to the YAML file"

/-- An environment whose promotions file holds the single byte `[`, which the decoder rejects
leaving `root` untouched. -/
def brokenYamlEnv : Env Unit Unit :=
  { NormalizeBranchName := fun b => b
    GetSelectedConfiguration := .ok demoConfig
    Open := fun _ => .ok ()
    ReadAll := fun _ => .ok [0x5b]
    Unmarshal := fun buf root =>
      if buf = [0x5b] then (some "yaml: line 1: did not find expected node content", root)
      else (none, root)
    remote := acceptAll }

/-! ## `RunE` of `promotionLevelSetupCmd` -/

/-- Reads a string-slice flag (`FlagSet.GetStringSlice`): an error when the flag is not
defined in the set or is not a string-slice flag. -/
def FlagSet.GetStringSlice (f : FlagSet) (name : String) : Except Error (List String) :=
  match f.Lookup name with
  | none => .error ("flag accessed but not defined: " ++ name)
  | some flag =>
    match flag.Value with
    | .stringSlice v => .ok v
    | .string _ => .error "trying to get stringSlice value of flag of type string"

/-- One entry of an `errors` list of the response (`struct { Message string }`). -/
structure DataError where
  Message : String
deriving DecidableEq, Repr

/-- The part of the response one mutation fills: its `errors` list. -/
structure ErrorsPayload where
  Errors : List DataError
deriving DecidableEq, Repr

/-- The `data` variable of lines 92-103: one error list per mutation. -/
structure SetupData where
  SetupPromotionLevel : ErrorsPayload
  SetPromotionLevelAutoPromotionProperty : ErrorsPayload
deriving DecidableEq, Repr

/-- The variables passed with the mutation (lines 142-152). -/
structure SetupVariables where
  project : String
  branch : String
  promotion : String
  description : String
  autoPromotion : Bool
  validationStamps : List String
  promotionLevels : List String
  incl : String
  excl : String
deriving DecidableEq, Repr

/-- What `RunE` of `pl setup` takes from outside the file: the selected configuration, the
transport (`client.GraphQLCall`, giving either an error or the decoded `data`) and
`client.CheckDataErrors`. -/
structure SetupEnv where
  GetSelectedConfiguration : Except Error Config
  GraphQLCall : Config → SetupVariables → Except Error SetupData
  CheckDataErrors : List DataError → Option Error

/-- The function `RunE` of `promotionLevelSetupCmd` (lines 47-166); `flags` is
`cmd.Flags()`. -/
def promotionLevelSetupCmd.RunE (env : SetupEnv) (flags : FlagSet) : Option Error :=
  match flags.GetString "project" with
  | .error err => some err
  | .ok project =>
  match flags.GetString "branch" with
  | .error err => some err
  | .ok branch =>
  match flags.GetString "promotion" with
  | .error err => some err
  | .ok promotion =>
  match flags.GetString "description" with
  | .error err => some err
  | .ok description =>
  match flags.GetStringSlice "validation" with
  | .error err => some err
  | .ok validations =>
  match flags.GetString "include" with
  | .error err => some err
  | .ok incl =>
  match flags.GetString "exclude" with
  | .error err => some err
  | .ok excl =>
  match flags.GetStringSlice "depends-on" with
  | .error err => some err
  | .ok promotions =>
  let autoPromotion :=
    decide (validations.length > 0) || decide (promotions.length > 0) || decide (incl ≠ "")
      || decide (excl ≠ "")
  match env.GetSelectedConfiguration with
  | .error err => some err
  | .ok cfg =>
  match env.GraphQLCall cfg
      ⟨project, branch, promotion, description, autoPromotion, validations, promotions,
        incl, excl⟩ with
  | .error err => some err
  | .ok data =>
  match env.CheckDataErrors data.SetupPromotionLevel.Errors with
  | some err => some err
  | none =>
  match env.CheckDataErrors data.SetPromotionLevelAutoPromotionProperty.Errors with
  | some err => some err
  | none => none

/-- Modelled from the spec: `client.CheckDataErrors` lies outside the files at hand. No
failure for an empty list; otherwise a single failure whose message is the messages of the
list joined by newlines, in the order they were returned. -/
def CheckDataErrors (errors : List DataError) : Option Error :=
  match errors with
  | [] => none
  | e :: es => some (String.intercalate "\n" ((e :: es).map (fun x => x.Message)))

/-- The flags of `pl setup` as the `init` functions define them, with project and branch
inherited. -/
def setupFlags : FlagSet :=
  (initialised ⟨"pl", ⟨[]⟩, []⟩).promotionLevelSetupCmd.Flags projectBranchFlags

/-- A setup environment whose transport answers with the given `data`. -/
def answering (data : SetupData) : SetupEnv :=
  { GetSelectedConfiguration := .ok demoConfig
    GraphQLCall := fun _ _ => .ok data
    CheckDataErrors := CheckDataErrors }

/-- A response with an error in both lists. -/
def bothFail : SetupData :=
  ⟨⟨[⟨"promotion level name is invalid"⟩]⟩, ⟨[⟨"unknown validation stamp"⟩]⟩⟩

/-- A response with an error in the auto-promotion list only. -/
def autoFails : SetupData :=
  ⟨⟨[]⟩, ⟨[⟨"unknown validation stamp"⟩, ⟨"unknown promotion level"⟩]⟩⟩

/-! ## Lemmas: the slice of validation stamps -/

theorem foldl_append_singleton (vs acc : List String) :
    vs.foldl (fun acc validation => acc ++ [validation]) acc = acc ++ vs := by
  induction vs generalizing acc with
  | nil => simp
  | cons v vs ih => simp [ih]

theorem foldl_promotions (ps : List PromotionConfig) (acc : List String) :
    ps.foldl
      (fun acc promotion =>
        if promotion.Validations.length > 0 then
          promotion.Validations.foldl (fun acc validation => acc ++ [validation]) acc
        else acc)
      acc = acc ++ (ps.map (fun p => p.Validations)).flatten := by
  induction ps generalizing acc with
  | nil => simp
  | cons p ps ih =>
    simp only [List.foldl_cons, List.map_cons, List.flatten_cons]
    rw [ih]
    by_cases h : p.Validations.length > 0
    · rw [if_pos h, foldl_append_singleton, List.append_assoc]
    · have h0 : p.Validations = [] := by
        cases hv : p.Validations with
        | nil => rfl
        | cons a l => simp [hv] at h
      simp [h0]

theorem validationStamps_eq_flatten (root : AutoPromotions) :
    validationStamps root = (root.Promotions.map (fun p => p.Validations)).flatten := by
  unfold validationStamps
  rw [foldl_promotions]
  simp

/-! ## Lemmas: a run is the plan issued up to the first error -/

theorem createValidations_eq_issueAll {σ : Type} (remote : Remote σ) (cfg : Config)
    (project branch : String) (stamps : List String) (s : σ) :
    createValidations remote cfg project branch stamps s =
      issueAll remote
        (stamps.map
          (fun validation => RemoteCall.SetupValidationStamp cfg project branch validation "" "" ""))
        s := by
  induction stamps generalizing s with
  | nil => rfl
  | cons v vs ih =>
    simp only [createValidations, List.map_cons, issueAll]
    rcases h : remote (RemoteCall.SetupValidationStamp cfg project branch v "" "" "") s with
      ⟨_ | e, s1⟩
    · simp [ih]
    · simp

theorem autoPromotionSetup_eq_issueAll {σ : Type} (remote : Remote σ) (cfg : Config)
    (project branch : String) (promotions : List PromotionConfig) (s : σ) :
    autoPromotionSetup remote cfg project branch promotions s =
      issueAll remote (promotions.map (promotionLevelCall cfg project branch)) s := by
  induction promotions generalizing s with
  | nil => rfl
  | cons p ps ih =>
    simp only [autoPromotionSetup, List.map_cons, issueAll]
    rcases h : remote (promotionLevelCall cfg project branch p) s with ⟨_ | e, s1⟩
    · simp [ih]
    · simp

theorem issueAll_append {σ : Type} (remote : Remote σ) (as bs : List RemoteCall) (s : σ) :
    issueAll remote (as ++ bs) s =
      match (issueAll remote as s).err with
      | some e => ⟨some e, (issueAll remote as s).calls, (issueAll remote as s).remote⟩
      | none =>
        ⟨(issueAll remote bs (issueAll remote as s).remote).err,
          (issueAll remote as s).calls ++ (issueAll remote bs (issueAll remote as s).remote).calls,
          (issueAll remote bs (issueAll remote as s).remote).remote⟩ := by
  induction as generalizing s with
  | nil => simp [issueAll]
  | cons a as ih =>
    simp only [List.cons_append, issueAll]
    rcases h : remote a s with ⟨_ | e, s1⟩
    · simp only [List.append_eq, ih]
      cases h2 : (issueAll remote as s1).err <;> simp
    · simp

theorem setupFromRoot_eq_issueAll {σ : Type} (remote : Remote σ) (cfg : Config)
    (project branch : String) (root : AutoPromotions) (s : σ) :
    setupFromRoot remote cfg project branch root s =
      issueAll remote (plannedCalls cfg project branch root) s := by
  simp only [setupFromRoot, plannedCalls, issueAll_append, createValidations_eq_issueAll,
    autoPromotionSetup_eq_issueAll]

/-- The call logged at a position is the planned call of that position. -/
theorem issueAll_call {σ : Type} (remote : Remote σ) (cs : List RemoteCall) (s : σ) (i : Nat)
    (x : Issued) (h : (issueAll remote cs s).calls[i]? = some x) : cs[i]? = some x.call := by
  induction cs generalizing s i with
  | nil => simp [issueAll] at h
  | cons c cs ih =>
    simp only [issueAll] at h
    rcases hr : remote c s with ⟨_ | e, s1⟩
    · simp only [hr] at h
      cases i with
      | zero => simp at h; simp [← h]
      | succ i => simp only [List.getElem?_cons_succ] at h ⊢; exact ih _ _ h
    · simp only [hr] at h
      cases i with
      | zero => simp at h; simp [← h]
      | succ i => simp at h

/-- A logged error is the error of the run and ends the log. -/
theorem issueAll_error {σ : Type} (remote : Remote σ) (cs : List RemoteCall) (s : σ) (i : Nat)
    (c : RemoteCall) (e : Error) (h : (issueAll remote cs s).calls[i]? = some ⟨c, some e⟩) :
    (issueAll remote cs s).err = some e ∧ (issueAll remote cs s).calls.length = i + 1 := by
  induction cs generalizing s i with
  | nil => simp [issueAll] at h
  | cons c0 cs ih =>
    simp only [issueAll] at h ⊢
    rcases hr : remote c0 s with ⟨_ | e0, s1⟩
    · simp only [hr] at h ⊢
      cases i with
      | zero => simp at h
      | succ i =>
        simp only [List.getElem?_cons_succ] at h
        have := ih _ _ h
        simpa using this
    · simp only [hr] at h ⊢
      cases i with
      | zero => simp at h; simp [h.2]
      | succ i => simp at h

/-- A run without error issued the whole plan, and every call returned no error. -/
theorem issueAll_ok {σ : Type} (remote : Remote σ) (cs : List RemoteCall) (s : σ)
    (h : (issueAll remote cs s).err = none) :
    (issueAll remote cs s).calls = cs.map (fun c => ⟨c, none⟩) := by
  induction cs generalizing s with
  | nil => simp [issueAll]
  | cons c cs ih =>
    simp only [issueAll] at h ⊢
    rcases hr : remote c s with ⟨_ | e, s1⟩
    · simp only [hr] at h ⊢
      simpa using ih _ h
    · simp [hr] at h

/-- With a remote that always succeeds the run has no error. -/
theorem issueAll_alwaysSucceeds {σ : Type} (remote : Remote σ) (hok : AlwaysSucceeds remote)
    (cs : List RemoteCall) (s : σ) : (issueAll remote cs s).err = none := by
  induction cs generalizing s with
  | nil => simp [issueAll]
  | cons c cs ih =>
    simp only [issueAll]
    have h1 := hok c s
    rcases hr : remote c s with ⟨_ | e, s1⟩
    · simpa using ih s1
    · simp [hr] at h1

/-- An error returned by the run is the result of the last call issued. -/
theorem issueAll_err_last {σ : Type} (remote : Remote σ) (cs : List RemoteCall) (s : σ)
    (e : Error) (h : (issueAll remote cs s).err = some e) :
    ∃ c, (issueAll remote cs s).calls.getLast? = some ⟨c, some e⟩ := by
  induction cs generalizing s with
  | nil => simp [issueAll] at h
  | cons c0 cs ih =>
    simp only [issueAll] at h ⊢
    rcases hr : remote c0 s with ⟨_ | e0, s1⟩
    · simp only [hr] at h ⊢
      obtain ⟨c, hc⟩ := ih _ h
      refine ⟨c, ?_⟩
      cases hcalls : (issueAll remote cs s1).calls with
      | nil => simp [hcalls] at hc
      | cons a l => rw [hcalls] at hc; simpa [List.getLast?_cons_cons] using hc
    · simp only [hr] at h ⊢
      refine ⟨c0, ?_⟩
      simp at h
      simp [h]

/-- In the plan, the validation-stamp calls are exactly the first
`(validationStamps root).length` positions. -/
theorem plannedCalls_kind (cfg : Config) (project branch : String) (root : AutoPromotions)
    (k : Nat) (c : RemoteCall) (h : (plannedCalls cfg project branch root)[k]? = some c) :
    (c.isValidationStamp = true ↔ k < (validationStamps root).length) ∧
      (c.isPromotionLevel = true ↔ (validationStamps root).length ≤ k) := by
  unfold plannedCalls at h
  by_cases hk : k < (validationStamps root).length
  · rw [List.getElem?_append_left (by simpa using hk)] at h
    simp only [List.getElem?_map, Option.map_eq_some'] at h
    obtain ⟨v, _, rfl⟩ := h
    simp [RemoteCall.isValidationStamp, RemoteCall.isPromotionLevel, hk]
  · rw [List.getElem?_append_right (by simpa using hk)] at h
    simp only [List.getElem?_map, Option.map_eq_some'] at h
    obtain ⟨p, _, rfl⟩ := h
    simp only [promotionLevelCall, RemoteCall.isValidationStamp, RemoteCall.isPromotionLevel]
    simp only [not_lt] at hk
    simp [hk]

/-- The plan at a promotion entry's position. -/
theorem plannedCalls_promotion (cfg : Config) (project branch : String) (root : AutoPromotions)
    (i : Nat) (P : PromotionConfig) (h : root.Promotions[i]? = some P) :
    (plannedCalls cfg project branch root)[(validationStamps root).length + i]? =
      some (promotionLevelCall cfg project branch P) := by
  unfold plannedCalls
  rw [List.getElem?_append_right (by simp)]
  simp [h]

/-! ## C1 -/

/-- C1 as stated fails: when BRONZE and SILVER both require `build`, the list of validation
stamps holds `build` twice, not once. -/
theorem validationStamps_repeats_shared_name :
    validationStamps sharedValidation = ["build", "build"] ∧
      (validationStamps sharedValidation).count "build" ≠ 1 := by
  decide

/-- C1 (amended): the list of validation stamps is the concatenation, in document order, of
the `validations` lists of the promotion entries. So it holds exactly the referenced names,
each as many times as it is referenced (not once), and the first occurrences come in
first-seen order. -/
theorem validationStamps_is_concatenation (root : AutoPromotions) :
    validationStamps root = (root.Promotions.map (fun p => p.Validations)).flatten ∧
      (∀ v, v ∈ validationStamps root ↔ ∃ p ∈ root.Promotions, v ∈ p.Validations) ∧
      (∀ v, (validationStamps root).count v =
        (root.Promotions.map (fun p => p.Validations.count v)).sum) := by
  refine ⟨validationStamps_eq_flatten root, ?_, ?_⟩
  · intro v
    rw [validationStamps_eq_flatten, List.mem_flatten]
    constructor
    · rintro ⟨l, hl, hv⟩
      obtain ⟨p, hp, rfl⟩ := List.mem_map.1 hl
      exact ⟨p, hp, hv⟩
    · rintro ⟨p, hp, hv⟩
      exact ⟨p.Validations, List.mem_map.2 ⟨p, hp, rfl⟩, hv⟩
  · intro v
    rw [validationStamps_eq_flatten, List.count_flatten, List.map_map]
    rfl

/-! ## C2 -/

/-- C2: whatever the document and the remote, when the call logged at position `i` returned
an error `e`, the run returns exactly `e` and the log ends at `i` (no call is issued for a
later target); if the failed call is a validation-stamp call, the log holds no
promotion-level call. For the BRONZE/SILVER document with `lint` rejected, the calls are
unit-tests and lint only. -/
theorem remote_error_stops_run :
    (∀ (σ : Type) (remote : Remote σ) (cfg : Config) (project branch : String)
      (root : AutoPromotions) (s : σ) (i : Nat) (c : RemoteCall) (e : Error),
      (setupFromRoot remote cfg project branch root s).calls[i]? = some ⟨c, some e⟩ →
        (setupFromRoot remote cfg project branch root s).err = some e ∧
        (setupFromRoot remote cfg project branch root s).calls.length = i + 1 ∧
        (c.isValidationStamp = true →
          ∀ x ∈ (setupFromRoot remote cfg project branch root s).calls,
            x.call.isPromotionLevel = false)) ∧
    ((setupFromRoot lintFails demoConfig "P" "B" bronzeSilver ()).err =
        some "lint: validation stamp rejected" ∧
      (setupFromRoot lintFails demoConfig "P" "B" bronzeSilver ()).calls.map (fun x => x.call) =
        [RemoteCall.SetupValidationStamp demoConfig "P" "B" "unit-tests" "" "" "",
          RemoteCall.SetupValidationStamp demoConfig "P" "B" "lint" "" "" ""]) := by
  refine ⟨?_, by decide⟩
  intro σ remote cfg project branch root s i c e h
  rw [setupFromRoot_eq_issueAll] at h ⊢
  obtain ⟨herr, hlen⟩ := issueAll_error remote _ s i c e h
  refine ⟨herr, hlen, ?_⟩
  intro hc x hx
  obtain ⟨k, hk, hxk⟩ := List.getElem_of_mem hx
  have hkget : (issueAll remote (plannedCalls cfg project branch root) s).calls[k]? = some x := by
    rw [List.getElem?_eq_getElem hk, hxk]
  have hpk := issueAll_call remote _ s k x hkget
  have hpi := issueAll_call remote _ s i _ h
  have hi := ((plannedCalls_kind cfg project branch root i c hpi).1).1 hc
  have hkn : k < (validationStamps root).length := by omega
  have hvs := ((plannedCalls_kind cfg project branch root k x.call hpk).1).2 hkn
  cases hcall : x.call <;> simp_all [RemoteCall.isValidationStamp, RemoteCall.isPromotionLevel]

/-- C2 at a concrete run: BRONZE/SILVER with `lint` rejected; the call at position 1 failed,
so the run returns its error and the log has two entries, none for a promotion level. -/
theorem remote_error_stops_run_witness :
    (setupFromRoot lintFails demoConfig "P" "B" bronzeSilver ()).calls[1]? =
        some ⟨RemoteCall.SetupValidationStamp demoConfig "P" "B" "lint" "" "" "",
          some "lint: validation stamp rejected"⟩ ∧
      ((setupFromRoot lintFails demoConfig "P" "B" bronzeSilver ()).err =
          some "lint: validation stamp rejected" ∧
        (setupFromRoot lintFails demoConfig "P" "B" bronzeSilver ()).calls.length = 1 + 1 ∧
        ((RemoteCall.SetupValidationStamp demoConfig "P" "B" "lint" "" "" "").isValidationStamp
            = true →
          ∀ x ∈ (setupFromRoot lintFails demoConfig "P" "B" bronzeSilver ()).calls,
            x.call.isPromotionLevel = false)) :=
  ⟨by decide,
    remote_error_stops_run.1 Unit lintFails demoConfig "P" "B" bronzeSilver () 1
      (RemoteCall.SetupValidationStamp demoConfig "P" "B" "lint" "" "" "")
      "lint: validation stamp rejected" (by decide)⟩

/-- With a remote that always succeeds, the log is the whole plan, every call without error. -/
theorem setupFromRoot_alwaysSucceeds {σ : Type} (remote : Remote σ) (hok : AlwaysSucceeds remote)
    (cfg : Config) (project branch : String) (root : AutoPromotions) (s : σ) :
    (setupFromRoot remote cfg project branch root s).err = none ∧
      (setupFromRoot remote cfg project branch root s).calls =
        (plannedCalls cfg project branch root).map (fun c => ⟨c, none⟩) := by
  rw [setupFromRoot_eq_issueAll]
  have h := issueAll_alwaysSucceeds remote hok (plannedCalls cfg project branch root) s
  exact ⟨h, issueAll_ok remote _ s h⟩

/-! ## C3 -/

/-- C3: whatever the document and the remote, every validation-stamp call of the log stands
before every promotion-level call; and with a remote that always succeeds, the BRONZE/SILVER
document yields no error and exactly the five calls unit-tests, lint, deploy, BRONZE, SILVER
in that order. -/
theorem stamps_before_levels :
    (∀ (σ : Type) (remote : Remote σ) (cfg : Config) (project branch : String)
      (root : AutoPromotions) (s : σ) (i j : Nat) (x y : Issued),
      (setupFromRoot remote cfg project branch root s).calls[i]? = some x →
      (setupFromRoot remote cfg project branch root s).calls[j]? = some y →
      x.call.isValidationStamp = true → y.call.isPromotionLevel = true → i < j) ∧
    (∀ (σ : Type) (remote : Remote σ), AlwaysSucceeds remote →
      ∀ (cfg : Config) (project branch : String) (s : σ),
        (setupFromRoot remote cfg project branch bronzeSilver s).err = none ∧
        (setupFromRoot remote cfg project branch bronzeSilver s).calls =
          [⟨RemoteCall.SetupValidationStamp cfg project branch "unit-tests" "" "" "", none⟩,
            ⟨RemoteCall.SetupValidationStamp cfg project branch "lint" "" "" "", none⟩,
            ⟨RemoteCall.SetupValidationStamp cfg project branch "deploy" "" "" "", none⟩,
            ⟨RemoteCall.SetupPromotionLevel cfg project branch "BRONZE" "" true
              ["unit-tests", "lint"] [] "" "", none⟩,
            ⟨RemoteCall.SetupPromotionLevel cfg project branch "SILVER" "" true
              ["deploy"] ["BRONZE"] "" "", none⟩]) := by
  constructor
  · intro σ remote cfg project branch root s i j x y hx hy hvs hpl
    rw [setupFromRoot_eq_issueAll] at hx hy
    have hpx := issueAll_call remote _ s i x hx
    have hpy := issueAll_call remote _ s j y hy
    have hi := ((plannedCalls_kind cfg project branch root i x.call hpx).1).1 hvs
    have hj := ((plannedCalls_kind cfg project branch root j y.call hpy).2).1 hpl
    omega
  · intro σ remote hok cfg project branch s
    obtain ⟨herr, hcalls⟩ := setupFromRoot_alwaysSucceeds remote hok cfg project branch
      bronzeSilver s
    refine ⟨herr, ?_⟩
    rw [hcalls]
    rfl

/-- C3 at a concrete run: BRONZE/SILVER against the remote that accepts everything; the
`deploy` stamp (position 2) stands before the BRONZE level (position 3). -/
theorem stamps_before_levels_witness :
    ((setupFromRoot acceptAll demoConfig "P" "B" bronzeSilver ()).calls[2]? =
        some ⟨RemoteCall.SetupValidationStamp demoConfig "P" "B" "deploy" "" "" "", none⟩ ∧
      (setupFromRoot acceptAll demoConfig "P" "B" bronzeSilver ()).calls[3]? =
        some ⟨RemoteCall.SetupPromotionLevel demoConfig "P" "B" "BRONZE" "" true
          ["unit-tests", "lint"] [] "" "", none⟩ ∧
      AlwaysSucceeds acceptAll) ∧
    (2 < 3 ∧ (setupFromRoot acceptAll demoConfig "P" "B" bronzeSilver ()).err = none) :=
  ⟨⟨by decide, by decide, fun _ _ => rfl⟩,
    stamps_before_levels.1 Unit acceptAll demoConfig "P" "B" bronzeSilver () 2 3
      ⟨RemoteCall.SetupValidationStamp demoConfig "P" "B" "deploy" "" "" "", none⟩
      ⟨RemoteCall.SetupPromotionLevel demoConfig "P" "B" "BRONZE" "" true
        ["unit-tests", "lint"] [] "" "", none⟩
      (by decide) (by decide) rfl rfl,
    (stamps_before_levels.2 Unit acceptAll (fun _ _ => rfl) demoConfig "P" "B" ()).1⟩

/-! ## C4 -/

/-- C4 as stated fails: in the document where SILVER (which lists BRONZE in its `promotions`)
stands before BRONZE, the call for SILVER is issued first and the call for BRONZE second. -/
theorem dependent_set_up_before_prerequisite :
    (setupFromRoot acceptAll demoConfig "P" "B" silverFirst ()).calls =
        [⟨promotionLevelCall demoConfig "P" "B" ⟨"SILVER", [], ["BRONZE"]⟩, none⟩,
          ⟨promotionLevelCall demoConfig "P" "B" ⟨"BRONZE", [], []⟩, none⟩] ∧
      ¬ (∀ (P Q : PromotionConfig) (i j : Nat),
          P ∈ silverFirst.Promotions → Q ∈ silverFirst.Promotions → P.Name ∈ Q.Promotions →
          (setupFromRoot acceptAll demoConfig "P" "B" silverFirst ()).calls[i]? =
            some ⟨promotionLevelCall demoConfig "P" "B" P, none⟩ →
          (setupFromRoot acceptAll demoConfig "P" "B" silverFirst ()).calls[j]? =
            some ⟨promotionLevelCall demoConfig "P" "B" Q, none⟩ →
          i < j) := by
  refine ⟨by decide, ?_⟩
  intro h
  have := h ⟨"BRONZE", [], []⟩ ⟨"SILVER", [], ["BRONZE"]⟩ 1 0 (by decide) (by decide)
    (by decide) (by decide) (by decide)
  omega

/-- C4 (amended): with a remote that always succeeds, the promotion-level calls follow the
document order, after the validation-stamp calls: for entries `P` at document position `i`
and `Q` at position `j`, with `Q` listing `P` in its `promotions`, the call for `P` is the
call number `n + i` and the call for `Q` the call number `n + j` (`n` validation-stamp calls
come first), so the call for `P` comes first exactly when `P` stands before `Q`. -/
theorem levels_follow_document_order {σ : Type} (remote : Remote σ)
    (hok : AlwaysSucceeds remote) (cfg : Config) (project branch : String)
    (root : AutoPromotions) (s : σ) (i j : Nat) (P Q : PromotionConfig)
    (hP : root.Promotions[i]? = some P) (hQ : root.Promotions[j]? = some Q)
    (_hdep : P.Name ∈ Q.Promotions) :
    (setupFromRoot remote cfg project branch root s).calls[(validationStamps root).length + i]? =
        some ⟨promotionLevelCall cfg project branch P, none⟩ ∧
      (setupFromRoot remote cfg project branch root s).calls[(validationStamps root).length + j]? =
        some ⟨promotionLevelCall cfg project branch Q, none⟩ ∧
      ((validationStamps root).length + i < (validationStamps root).length + j ↔ i < j) := by
  obtain ⟨_, hcalls⟩ := setupFromRoot_alwaysSucceeds remote hok cfg project branch root s
  rw [hcalls]
  refine ⟨?_, ?_, by omega⟩
  · rw [List.getElem?_map, plannedCalls_promotion cfg project branch root i P hP]
    rfl
  · rw [List.getElem?_map, plannedCalls_promotion cfg project branch root j Q hQ]
    rfl

/-- C4 (amended) at a concrete run: BRONZE (position 0) and SILVER (position 1, listing
BRONZE) of the BRONZE/SILVER document are set up by the calls number 3 and 4. -/
theorem levels_follow_document_order_witness :
    (AlwaysSucceeds acceptAll ∧
      bronzeSilver.Promotions[0]? = some ⟨"BRONZE", ["unit-tests", "lint"], []⟩ ∧
      bronzeSilver.Promotions[1]? = some ⟨"SILVER", ["deploy"], ["BRONZE"]⟩ ∧
      "BRONZE" ∈ ["BRONZE"]) ∧
    ((setupFromRoot acceptAll demoConfig "P" "B" bronzeSilver ()).calls[
          (validationStamps bronzeSilver).length + 0]? =
        some ⟨promotionLevelCall demoConfig "P" "B" ⟨"BRONZE", ["unit-tests", "lint"], []⟩,
          none⟩ ∧
      (setupFromRoot acceptAll demoConfig "P" "B" bronzeSilver ()).calls[
          (validationStamps bronzeSilver).length + 1]? =
        some ⟨promotionLevelCall demoConfig "P" "B" ⟨"SILVER", ["deploy"], ["BRONZE"]⟩, none⟩ ∧
      ((validationStamps bronzeSilver).length + 0 < (validationStamps bronzeSilver).length + 1
        ↔ 0 < 1)) :=
  ⟨⟨fun _ _ => rfl, by decide, by decide, by decide⟩,
    levels_follow_document_order acceptAll (fun _ _ => rfl) demoConfig "P" "B" bronzeSilver ()
      0 1 ⟨"BRONZE", ["unit-tests", "lint"], []⟩ ⟨"SILVER", ["deploy"], ["BRONZE"]⟩
      (by decide) (by decide) (by decide)⟩

/-! ## C5 -/

/-- C5: with a remote that always succeeds, the run returns no error and the promotion-level
calls of the log are exactly one per promotion entry, in document order, each carrying the
entry's own name, `validations` and `promotions` unchanged, an empty description and empty
include and exclude filters. -/
theorem one_level_call_per_entry {σ : Type} (remote : Remote σ) (hok : AlwaysSucceeds remote)
    (cfg : Config) (project branch : String) (root : AutoPromotions) (s : σ) :
    (setupFromRoot remote cfg project branch root s).err = none ∧
      (setupFromRoot remote cfg project branch root s).calls.filter
          (fun x => x.call.isPromotionLevel) =
        root.Promotions.map (fun p =>
          ⟨RemoteCall.SetupPromotionLevel cfg project branch p.Name ""
            (decide (p.Validations.length > 0) || decide (p.Promotions.length > 0))
            p.Validations p.Promotions "" "", none⟩) := by
  obtain ⟨herr, hcalls⟩ := setupFromRoot_alwaysSucceeds remote hok cfg project branch root s
  refine ⟨herr, ?_⟩
  rw [hcalls]
  unfold plannedCalls
  rw [List.map_append, List.filter_append, List.map_map, List.map_map]
  have h1 : ∀ l : List String,
      List.filter (fun x : Issued => x.call.isPromotionLevel)
        (List.map ((fun c => (⟨c, none⟩ : Issued)) ∘ fun validation =>
          RemoteCall.SetupValidationStamp cfg project branch validation "" "" "") l) = [] := by
    intro l
    induction l with
    | nil => rfl
    | cons v l ih => simp [RemoteCall.isPromotionLevel]
  have h2 : ∀ l : List PromotionConfig,
      List.filter (fun x : Issued => x.call.isPromotionLevel)
        (List.map ((fun c => (⟨c, none⟩ : Issued)) ∘ promotionLevelCall cfg project branch) l) =
      l.map (fun p =>
          ⟨RemoteCall.SetupPromotionLevel cfg project branch p.Name ""
            (decide (p.Validations.length > 0) || decide (p.Promotions.length > 0))
            p.Validations p.Promotions "" "", none⟩) := by
    intro l
    induction l with
    | nil => rfl
    | cons q l ih => simpa [RemoteCall.isPromotionLevel, promotionLevelCall] using ih
  rw [h1, h2, List.nil_append]

/-- C5 at a concrete run: BRONZE/SILVER against the remote that accepts everything. -/
theorem one_level_call_per_entry_witness :
    AlwaysSucceeds acceptAll ∧
      ((setupFromRoot acceptAll demoConfig "P" "B" bronzeSilver ()).err = none ∧
        (setupFromRoot acceptAll demoConfig "P" "B" bronzeSilver ()).calls.filter
            (fun x => x.call.isPromotionLevel) =
          bronzeSilver.Promotions.map (fun p =>
            ⟨RemoteCall.SetupPromotionLevel demoConfig "P" "B" p.Name ""
              (decide (p.Validations.length > 0) || decide (p.Promotions.length > 0))
              p.Validations p.Promotions "" "", none⟩)) :=
  ⟨fun _ _ => rfl,
    one_level_call_per_entry acceptAll (fun _ _ => rfl) demoConfig "P" "B" bronzeSilver ()⟩

/-! ## C6 -/

/-- C6: whatever the document and the remote, every promotion-level call of the log is the
call of a promotion entry of the document, and its autoPromotion flag is false when the
entry's `validations` and `promotions` are both empty and true when one of them is not. -/
theorem autoPromotion_flag {σ : Type} (remote : Remote σ) (cfg : Config)
    (project branch : String) (root : AutoPromotions) (s : σ) (x : Issued)
    (hx : x ∈ (setupFromRoot remote cfg project branch root s).calls)
    (hpl : x.call.isPromotionLevel = true) :
    ∃ p ∈ root.Promotions, ∃ auto : Bool,
      x.call = RemoteCall.SetupPromotionLevel cfg project branch p.Name "" auto
        p.Validations p.Promotions "" "" ∧
      (p.Validations = [] ∧ p.Promotions = [] → auto = false) ∧
      (p.Validations ≠ [] ∨ p.Promotions ≠ [] → auto = true) := by
  rw [setupFromRoot_eq_issueAll] at hx
  obtain ⟨k, hk, hxk⟩ := List.getElem_of_mem hx
  have hkget :
      (issueAll remote (plannedCalls cfg project branch root) s).calls[k]? = some x := by
    rw [List.getElem?_eq_getElem hk, hxk]
  have hpk := issueAll_call remote _ s k x hkget
  have hge := ((plannedCalls_kind cfg project branch root k x.call hpk).2).1 hpl
  unfold plannedCalls at hpk
  rw [List.getElem?_append_right (by simpa using hge)] at hpk
  simp only [List.getElem?_map, Option.map_eq_some'] at hpk
  obtain ⟨p, hp, hcall⟩ := hpk
  refine ⟨p, List.getElem?_mem hp, _, hcall.symm, ?_, ?_⟩
  · rintro ⟨hv, hq⟩
    simp [hv, hq]
  · intro h
    rcases h with h | h
    · have : 0 < p.Validations.length := List.length_pos.2 h
      simp [this]
    · have : 0 < p.Promotions.length := List.length_pos.2 h
      simp [this]

/-- C6 at a concrete run: the BRONZE call of the BRONZE/SILVER document. -/
theorem autoPromotion_flag_witness :
    ((⟨promotionLevelCall demoConfig "P" "B" ⟨"BRONZE", ["unit-tests", "lint"], []⟩, none⟩ :
          Issued) ∈ (setupFromRoot acceptAll demoConfig "P" "B" bronzeSilver ()).calls ∧
      (promotionLevelCall demoConfig "P" "B"
        ⟨"BRONZE", ["unit-tests", "lint"], []⟩).isPromotionLevel = true) ∧
    (∃ p ∈ bronzeSilver.Promotions, ∃ auto : Bool,
      promotionLevelCall demoConfig "P" "B" ⟨"BRONZE", ["unit-tests", "lint"], []⟩ =
        RemoteCall.SetupPromotionLevel demoConfig "P" "B" p.Name "" auto
          p.Validations p.Promotions "" "" ∧
      (p.Validations = [] ∧ p.Promotions = [] → auto = false) ∧
      (p.Validations ≠ [] ∨ p.Promotions ≠ [] → auto = true)) :=
  ⟨⟨by decide, rfl⟩,
    autoPromotion_flag acceptAll demoConfig "P" "B" bronzeSilver ()
      ⟨promotionLevelCall demoConfig "P" "B" ⟨"BRONZE", ["unit-tests", "lint"], []⟩, none⟩
      (by decide) rfl⟩

/-! ## C7 -/

/-- C7 as stated fails: for a document with an empty promotion name and a duplicated
promotion name, the run returns no error and issues three remote calls, the first of them
for the empty name. -/
theorem bad_names_are_forwarded :
    (setupFromRoot acceptAll demoConfig "P" "B" badNames ()).err = none ∧
      (setupFromRoot acceptAll demoConfig "P" "B" badNames ()).calls.map (fun x => x.call) =
        [RemoteCall.SetupPromotionLevel demoConfig "P" "B" "" "" false [] [] "" "",
          RemoteCall.SetupPromotionLevel demoConfig "P" "B" "GOLD" "" false [] [] "" "",
          RemoteCall.SetupPromotionLevel demoConfig "P" "B" "GOLD" "" false [] [] "" ""] ∧
      ¬ ((setupFromRoot acceptAll demoConfig "P" "B" badNames ()).err ≠ none ∧
        (setupFromRoot acceptAll demoConfig "P" "B" badNames ()).calls.length = 0) := by
  decide

/-- C7 (amended): promotion names are not validated. For every document, whatever its
names, an error returned by the run is the error returned by the last remote call it issued
(never a configuration error raised before any call), and with a remote that always
succeeds the run returns no error after issuing one call per validation reference and one
per promotion entry. -/
theorem errors_only_from_remote {σ : Type} (remote : Remote σ) (cfg : Config)
    (project branch : String) (root : AutoPromotions) (s : σ) :
    (∀ e, (setupFromRoot remote cfg project branch root s).err = some e →
      ∃ c, (setupFromRoot remote cfg project branch root s).calls.getLast? =
        some ⟨c, some e⟩) ∧
    (AlwaysSucceeds remote →
      (setupFromRoot remote cfg project branch root s).err = none ∧
      (setupFromRoot remote cfg project branch root s).calls.length =
        (validationStamps root).length + root.Promotions.length) := by
  constructor
  · intro e he
    rw [setupFromRoot_eq_issueAll] at he ⊢
    exact issueAll_err_last remote _ s e he
  · intro hok
    obtain ⟨herr, hcalls⟩ := setupFromRoot_alwaysSucceeds remote hok cfg project branch root s
    refine ⟨herr, ?_⟩
    rw [hcalls]
    simp [plannedCalls]

/-- C7 (amended) at concrete runs: the BRONZE/SILVER document with `lint` rejected returns
the error of its last call; the document with bad names against the remote that accepts
everything returns no error after three calls. -/
theorem errors_only_from_remote_witness :
    ((setupFromRoot lintFails demoConfig "P" "B" bronzeSilver ()).err =
        some "lint: validation stamp rejected" ∧ AlwaysSucceeds acceptAll) ∧
    ((∃ c, (setupFromRoot lintFails demoConfig "P" "B" bronzeSilver ()).calls.getLast? =
        some ⟨c, some "lint: validation stamp rejected"⟩) ∧
      ((setupFromRoot acceptAll demoConfig "P" "B" badNames ()).err = none ∧
        (setupFromRoot acceptAll demoConfig "P" "B" badNames ()).calls.length =
          (validationStamps badNames).length + badNames.Promotions.length)) :=
  ⟨⟨by decide, fun _ _ => rfl⟩,
    (errors_only_from_remote lintFails demoConfig "P" "B" bronzeSilver ()).1 _ (by decide),
    (errors_only_from_remote acceptAll demoConfig "P" "B" badNames ()).2 (fun _ _ => rfl)⟩

/-! ## C9 -/

/-- C9: whatever the document and the remote, when the run returns no error, the log holds
a validation-stamp call without error for every validation name listed by any promotion
entry, a promotion-level call without error for every promotion entry, and no call of the
log returned an error. -/
theorem success_means_everything_set_up {σ : Type} (remote : Remote σ) (cfg : Config)
    (project branch : String) (root : AutoPromotions) (s : σ)
    (h : (setupFromRoot remote cfg project branch root s).err = none) :
    (∀ p ∈ root.Promotions, ∀ v ∈ p.Validations,
      (⟨RemoteCall.SetupValidationStamp cfg project branch v "" "" "", none⟩ : Issued) ∈
        (setupFromRoot remote cfg project branch root s).calls) ∧
    (∀ p ∈ root.Promotions,
      (⟨RemoteCall.SetupPromotionLevel cfg project branch p.Name ""
          (decide (p.Validations.length > 0) || decide (p.Promotions.length > 0))
          p.Validations p.Promotions "" "", none⟩ : Issued) ∈
        (setupFromRoot remote cfg project branch root s).calls) ∧
    (∀ x ∈ (setupFromRoot remote cfg project branch root s).calls, x.result = none) := by
  rw [setupFromRoot_eq_issueAll] at h ⊢
  rw [issueAll_ok remote _ s h]
  refine ⟨?_, ?_, ?_⟩
  · intro p hp v hv
    apply List.mem_map.2
    refine ⟨_, ?_, rfl⟩
    unfold plannedCalls
    apply List.mem_append_left
    apply List.mem_map.2
    refine ⟨v, ?_, rfl⟩
    rw [validationStamps_eq_flatten, List.mem_flatten]
    exact ⟨p.Validations, List.mem_map.2 ⟨p, hp, rfl⟩, hv⟩
  · intro p hp
    apply List.mem_map.2
    refine ⟨_, ?_, rfl⟩
    unfold plannedCalls
    apply List.mem_append_right
    exact List.mem_map.2 ⟨p, hp, rfl⟩
  · intro x hx
    obtain ⟨c, _, rfl⟩ := List.mem_map.1 hx
    rfl

/-- C9 at a concrete run: BRONZE/SILVER against the remote that accepts everything. -/
theorem success_means_everything_set_up_witness :
    (setupFromRoot acceptAll demoConfig "P" "B" bronzeSilver ()).err = none ∧
    ((∀ p ∈ bronzeSilver.Promotions, ∀ v ∈ p.Validations,
      (⟨RemoteCall.SetupValidationStamp demoConfig "P" "B" v "" "" "", none⟩ : Issued) ∈
        (setupFromRoot acceptAll demoConfig "P" "B" bronzeSilver ()).calls) ∧
    (∀ p ∈ bronzeSilver.Promotions,
      (⟨RemoteCall.SetupPromotionLevel demoConfig "P" "B" p.Name ""
          (decide (p.Validations.length > 0) || decide (p.Promotions.length > 0))
          p.Validations p.Promotions "" "", none⟩ : Issued) ∈
        (setupFromRoot acceptAll demoConfig "P" "B" bronzeSilver ()).calls) ∧
    (∀ x ∈ (setupFromRoot acceptAll demoConfig "P" "B" bronzeSilver ()).calls,
      x.result = none)) :=
  ⟨by decide,
    success_means_everything_set_up acceptAll demoConfig "P" "B" bronzeSilver () (by decide)⟩

/-! ## C8 -/

/-- Once the parameters, the configuration and the file have been read, `RunE` goes on with
whatever document the decoder left, whether or not the decoder reported an error. -/
theorem RunE_after_read {σ ρ : Type} (env : Env σ ρ) (flags : FlagSet) (s : σ)
    (project branch path : String) (cfg : Config) (reader : ρ) (buf : List Nat)
    (hp : flags.GetString "project" = .ok project) (hb : flags.GetString "branch" = .ok branch)
    (hy : flags.GetString "yaml" = .ok path) (hc : env.GetSelectedConfiguration = .ok cfg)
    (ho : env.Open (if path = "" then ".ontrack/promotions.yaml" else path) = .ok reader)
    (hr : env.ReadAll reader = .ok buf) :
    RunE env flags s =
      ⟨(setupFromRoot env.remote cfg project (env.NormalizeBranchName branch)
          (env.Unmarshal buf ⟨[]⟩).2 s).err,
        [if path = "" then ".ontrack/promotions.yaml" else path],
        (setupFromRoot env.remote cfg project (env.NormalizeBranchName branch)
          (env.Unmarshal buf ⟨[]⟩).2 s).calls,
        (setupFromRoot env.remote cfg project (env.NormalizeBranchName branch)
          (env.Unmarshal buf ⟨[]⟩).2 s).remote⟩ := by
  unfold RunE
  simp only [hp, hb, hy, hc]
  rw [ho]
  simp only [hr]

/-- C8 fails on the code: with a promotions file holding the single byte `[`, for which the
decoder reports an error, `RunE` opens the file, drops the decoder's error, goes on with the
empty document, issues no call and returns no error. -/
theorem RunE_drops_decoder_error :
    (brokenYamlEnv.Unmarshal [0x5b] ⟨[]⟩).1 =
        some "yaml: line 1: did not find expected node content" ∧
      (RunE brokenYamlEnv documentedAutoFlags ()).opened = [".ontrack/promotions.yaml"] ∧
      (RunE brokenYamlEnv documentedAutoFlags ()).calls = [] ∧
      (RunE brokenYamlEnv documentedAutoFlags ()).err = none := by
  decide

/-! ## C10 -/

/-- C10 fails on the code: after both `init` functions, the `yaml` option (short `y`, default
`.ontrack/promotions.yaml`) is defined on the `setup` command and not on the `auto` command.
So, unless a parent command happens to define a persistent `yaml` flag, `--yaml` is an unknown
flag for `pl auto`, and every run of `pl auto` returns an error before it opens any file or
issues any call; when project and branch are defined, the error is the failed lookup of
`yaml`. -/
theorem yaml_flag_defined_on_setup_not_auto {σ ρ : Type} (env : Env σ ρ) (parent : Command)
    (inherited : FlagSet) (s : σ) (h : inherited.Lookup "yaml" = none) :
    (initialised parent).promotionLevelAutoCmd.flags.Lookup "yaml" = none ∧
    (initialised parent).promotionLevelSetupCmd.flags.Lookup "yaml" =
      some ⟨"yaml", "y", "Path to the YAML file", .string ".ontrack/promotions.yaml"⟩ ∧
    (∀ path, ((initialised parent).promotionLevelAutoCmd.Flags inherited).Parse
      [("yaml", path)] = .error "unknown flag: --yaml") ∧
    (∃ e, (RunE env ((initialised parent).promotionLevelAutoCmd.Flags inherited) s).err
      = some e) ∧
    (RunE env ((initialised parent).promotionLevelAutoCmd.Flags inherited) s).opened = [] ∧
    (RunE env ((initialised parent).promotionLevelAutoCmd.Flags inherited) s).calls = [] ∧
    (∀ project branch,
      ((initialised parent).promotionLevelAutoCmd.Flags inherited).GetString "project"
        = .ok project →
      ((initialised parent).promotionLevelAutoCmd.Flags inherited).GetString "branch"
        = .ok branch →
      (RunE env ((initialised parent).promotionLevelAutoCmd.Flags inherited) s).err =
        some "flag accessed but not defined: yaml") := by
  have hflags : (initialised parent).promotionLevelAutoCmd.Flags inherited = inherited := rfl
  have hy : inherited.GetString "yaml" = .error "flag accessed but not defined: yaml" := by
    simp only [FlagSet.GetString, h]
    rfl
  rw [hflags]
  refine ⟨rfl, rfl, ?_, ?_, ?_, ?_, ?_⟩
  · intro path
    simp only [FlagSet.Parse, FlagSet.Set, h]
    rfl
  · unfold RunE
    cases inherited.GetString "project" with
    | error e => exact ⟨e, rfl⟩
    | ok project =>
      cases inherited.GetString "branch" with
      | error e => exact ⟨e, rfl⟩
      | ok branch => simp [hy]
  · unfold RunE
    cases inherited.GetString "project" with
    | error e => rfl
    | ok project =>
      cases inherited.GetString "branch" with
      | error e => rfl
      | ok branch => simp [hy]
  · unfold RunE
    cases inherited.GetString "project" with
    | error e => rfl
    | ok project =>
      cases inherited.GetString "branch" with
      | error e => rfl
      | ok branch => simp [hy]
  · intro project branch hp hb
    unfold RunE
    simp [hp, hb, hy]

/-- C10 at a concrete run: `pl auto` with the persistent flags project and branch. -/
theorem yaml_flag_defined_on_setup_not_auto_witness :
    projectBranchFlags.Lookup "yaml" = none ∧
    ((initialised ⟨"pl", ⟨[]⟩, []⟩).promotionLevelAutoCmd.flags.Lookup "yaml" = none ∧
    (initialised ⟨"pl", ⟨[]⟩, []⟩).promotionLevelSetupCmd.flags.Lookup "yaml" =
      some ⟨"yaml", "y", "Path to the YAML file", .string ".ontrack/promotions.yaml"⟩ ∧
    (∀ path, ((initialised ⟨"pl", ⟨[]⟩, []⟩).promotionLevelAutoCmd.Flags
      projectBranchFlags).Parse [("yaml", path)] = .error "unknown flag: --yaml") ∧
    (∃ e, (RunE brokenYamlEnv ((initialised ⟨"pl", ⟨[]⟩, []⟩).promotionLevelAutoCmd.Flags
      projectBranchFlags) ()).err = some e) ∧
    (RunE brokenYamlEnv ((initialised ⟨"pl", ⟨[]⟩, []⟩).promotionLevelAutoCmd.Flags
      projectBranchFlags) ()).opened = [] ∧
    (RunE brokenYamlEnv ((initialised ⟨"pl", ⟨[]⟩, []⟩).promotionLevelAutoCmd.Flags
      projectBranchFlags) ()).calls = [] ∧
    (∀ project branch,
      ((initialised ⟨"pl", ⟨[]⟩, []⟩).promotionLevelAutoCmd.Flags
        projectBranchFlags).GetString "project" = .ok project →
      ((initialised ⟨"pl", ⟨[]⟩, []⟩).promotionLevelAutoCmd.Flags
        projectBranchFlags).GetString "branch" = .ok branch →
      (RunE brokenYamlEnv ((initialised ⟨"pl", ⟨[]⟩, []⟩).promotionLevelAutoCmd.Flags
        projectBranchFlags) ()).err = some "flag accessed but not defined: yaml")) :=
  ⟨by decide,
    yaml_flag_defined_on_setup_not_auto brokenYamlEnv ⟨"pl", ⟨[]⟩, []⟩ projectBranchFlags ()
      (by decide)⟩

/-! ## C11 -/

/-- The checker modelled from the spec returns no error exactly for an empty list. -/
theorem CheckDataErrors_eq_none (errors : List DataError) :
    CheckDataErrors errors = none ↔ errors = [] := by
  cases errors <;> simp [CheckDataErrors]

/-- C11: in `pl setup`, when the parameters and the configuration were read, the transport
call returned `data` without error, and `CheckDataErrors` returns no error exactly for an
empty list, the two error lists are checked base first: a non-empty base list makes the run
return the failure built from it, whatever the auto-promotion list holds; with an empty base
list a non-empty auto-promotion list makes the run return the failure built from that list;
and the run returns no error if and only if both lists are empty. -/
theorem setup_checks_base_errors_first (env : SetupEnv) (flags : FlagSet)
    (project branch promotion description incl excl : String)
    (validations promotions : List String) (cfg : Config) (data : SetupData)
    (hproject : flags.GetString "project" = .ok project)
    (hbranch : flags.GetString "branch" = .ok branch)
    (hpromotion : flags.GetString "promotion" = .ok promotion)
    (hdescription : flags.GetString "description" = .ok description)
    (hvalidation : flags.GetStringSlice "validation" = .ok validations)
    (hinclude : flags.GetString "include" = .ok incl)
    (hexclude : flags.GetString "exclude" = .ok excl)
    (hdepends : flags.GetStringSlice "depends-on" = .ok promotions)
    (hcfg : env.GetSelectedConfiguration = .ok cfg)
    (hcall : env.GraphQLCall cfg
      ⟨project, branch, promotion, description,
        decide (validations.length > 0) || decide (promotions.length > 0) || decide (incl ≠ "")
          || decide (excl ≠ ""),
        validations, promotions, incl, excl⟩ = .ok data)
    (hcheck : ∀ errors, env.CheckDataErrors errors = none ↔ errors = []) :
    (data.SetupPromotionLevel.Errors ≠ [] →
      promotionLevelSetupCmd.RunE env flags =
          env.CheckDataErrors data.SetupPromotionLevel.Errors ∧
        promotionLevelSetupCmd.RunE env flags ≠ none) ∧
    (data.SetupPromotionLevel.Errors = [] →
      data.SetPromotionLevelAutoPromotionProperty.Errors ≠ [] →
      promotionLevelSetupCmd.RunE env flags =
          env.CheckDataErrors data.SetPromotionLevelAutoPromotionProperty.Errors ∧
        promotionLevelSetupCmd.RunE env flags ≠ none) ∧
    (promotionLevelSetupCmd.RunE env flags = none ↔
      data.SetupPromotionLevel.Errors = [] ∧
        data.SetPromotionLevelAutoPromotionProperty.Errors = []) := by
  have hrun : promotionLevelSetupCmd.RunE env flags =
      match env.CheckDataErrors data.SetupPromotionLevel.Errors with
      | some err => some err
      | none =>
        match env.CheckDataErrors data.SetPromotionLevelAutoPromotionProperty.Errors with
        | some err => some err
        | none => none := by
    unfold promotionLevelSetupCmd.RunE
    simp only [hproject, hbranch, hpromotion, hdescription, hvalidation, hinclude, hexclude,
      hdepends, hcfg]
    rw [hcall]
  have hbase := hcheck data.SetupPromotionLevel.Errors
  have hauto := hcheck data.SetPromotionLevelAutoPromotionProperty.Errors
  rw [hrun]
  cases hb : env.CheckDataErrors data.SetupPromotionLevel.Errors with
  | some eb =>
    have hne : data.SetupPromotionLevel.Errors ≠ [] := by
      intro h
      rw [hbase.2 h] at hb
      cases hb
    simp [hne]
  | none =>
    have hnil : data.SetupPromotionLevel.Errors = [] := hbase.1 hb
    cases ha : env.CheckDataErrors data.SetPromotionLevelAutoPromotionProperty.Errors with
    | some ea =>
      have hne : data.SetPromotionLevelAutoPromotionProperty.Errors ≠ [] := by
        intro h
        rw [hauto.2 h] at ha
        cases ha
      simp [hnil, hne]
    | none =>
      have hnil2 : data.SetPromotionLevelAutoPromotionProperty.Errors = [] := hauto.1 ha
      simp [hnil, hnil2]

/-- C11 at a concrete run: `pl setup` with the flags its `init` defines and a response with an
error in both lists; the run returns the failure built from the base list. -/
theorem setup_checks_base_errors_first_witness :
    (setupFlags.GetString "project" = .ok "" ∧
      setupFlags.GetString "branch" = .ok "" ∧
      setupFlags.GetString "promotion" = .ok "" ∧
      setupFlags.GetString "description" = .ok "" ∧
      setupFlags.GetStringSlice "validation" = .ok [] ∧
      setupFlags.GetString "include" = .ok "" ∧
      setupFlags.GetString "exclude" = .ok "" ∧
      setupFlags.GetStringSlice "depends-on" = .ok [] ∧
      (answering bothFail).GetSelectedConfiguration = .ok demoConfig ∧
      (answering bothFail).GraphQLCall demoConfig
        ⟨"", "", "", "",
          decide (([] : List String).length > 0) || decide (([] : List String).length > 0)
            || decide ("" ≠ "") || decide ("" ≠ ""),
          [], [], "", ""⟩ = .ok bothFail ∧
      (∀ errors, (answering bothFail).CheckDataErrors errors = none ↔ errors = [])) ∧
    ((bothFail.SetupPromotionLevel.Errors ≠ [] →
      promotionLevelSetupCmd.RunE (answering bothFail) setupFlags =
          (answering bothFail).CheckDataErrors bothFail.SetupPromotionLevel.Errors ∧
        promotionLevelSetupCmd.RunE (answering bothFail) setupFlags ≠ none) ∧
    (bothFail.SetupPromotionLevel.Errors = [] →
      bothFail.SetPromotionLevelAutoPromotionProperty.Errors ≠ [] →
      promotionLevelSetupCmd.RunE (answering bothFail) setupFlags =
          (answering bothFail).CheckDataErrors
            bothFail.SetPromotionLevelAutoPromotionProperty.Errors ∧
        promotionLevelSetupCmd.RunE (answering bothFail) setupFlags ≠ none) ∧
    (promotionLevelSetupCmd.RunE (answering bothFail) setupFlags = none ↔
      bothFail.SetupPromotionLevel.Errors = [] ∧
        bothFail.SetPromotionLevelAutoPromotionProperty.Errors = [])) :=
  ⟨⟨rfl, rfl, rfl, rfl, rfl, rfl, rfl, rfl, rfl, rfl, CheckDataErrors_eq_none⟩,
    setup_checks_base_errors_first (answering bothFail) setupFlags "" "" "" "" "" "" [] []
      demoConfig bothFail rfl rfl rfl rfl rfl rfl rfl rfl rfl rfl CheckDataErrors_eq_none⟩

end OntrackCli
